import Mathlib

/-!
Shallow embedding of `.github/scripts/update_app_info.py` (IntuneGet).

The two pieces of logic the claims are about are:

* the version resolver `get_latest_version_folder` (numeric ranking of
  digit-prefixed folder names, top-3 candidate window, commit-date
  tie-breaking), and
* the version gate inside `save_app_info` (normalized numeric comparison
  of the stored `PackageVersion` against the freshly fetched one).

Machine integers do not occur (Python ints are unbounded), so version
components are `Nat`.  Timestamps are modelled as `Nat`, with
`datetime.min` mapped to `0` (all that matters for the code is that
timestamps are totally ordered with a least element).  Remote lookups
that can fail are modelled as `Option`-valued functions.
-/

namespace UpdateAppInfo

/-- Python comparison of two integer lists (`list.__lt__`): element-wise,
with a strict prefix comparing less than the longer list.  This is the
key order used by `version_folders.sort(key=..., reverse=True)`. -/
def pyLt : List Nat → List Nat → Bool
  | _, [] => false
  | [], _ :: _ => true
  | a :: as, b :: bs => if a < b then true else if b < a then false else pyLt as bs

/-- Strict lexicographic "less than" on two lists compared index by index;
positions beyond either list's end are not consulted (callers pad to a
common length first). -/
def lexLt : List Nat → List Nat → Bool
  | _, [] => false
  | [], _ :: _ => true
  | a :: as, b :: bs => if a < b then true else if b < a then false else lexLt as bs

/-- Pad a list of numeric components on the right with zeros up to length
`k` (no-op when the list is already at least that long). -/
def padTo (l : List Nat) (k : Nat) : List Nat :=
  l ++ List.replicate (k - l.length) 0

/-- Zero-padded lexicographic "less than": both sequences are padded on
the right with zeros to a common length and then compared index by
index.  This is the comparison order the spec describes for sequences of
differing length. -/
def zpLt (a b : List Nat) : Bool :=
  lexLt (padTo a (max a.length b.length)) (padTo b (max a.length b.length))

/-- Parse a run of decimal digit characters into a number, as Python's
`int` does on a string of digits. -/
def parseDigits (cs : List Char) : Nat :=
  cs.foldl (fun acc c => acc * 10 + (c.toNat - 48)) 0

/-- Worker for `digitRuns`: `acc` holds the digits of the current run in
reverse order. -/
def digitRunsAux : List Char → List Char → List (List Char)
  | acc, [] => if acc = [] then [] else [acc.reverse]
  | acc, c :: cs =>
    if c.isDigit then digitRunsAux (c :: acc) cs
    else if acc = [] then digitRunsAux [] cs
    else acc.reverse :: digitRunsAux [] cs

/-- All maximal runs of decimal digits in a string, in order:
`re.findall(r'\d+', s)` from `normalize_version` in `save_app_info`. -/
def digitRuns (s : String) : List (List Char) :=
  digitRunsAux [] s.data

/-- The sequence of integers obtained from a version string's maximal
digit runs (the list comprehension inside `normalize_version`). -/
def seqOf (s : String) : List Nat :=
  (digitRuns s).map parseDigits

/-- `normalize_version` from `save_app_info`: extract all digit runs and
pad on the right with zeros to at least 3 components. -/
def normalize_version (s : String) : List Nat :=
  padTo (seqOf s) 3

/-- Tail of the comparison loop of `save_app_info` once the existing
parts are exhausted: every remaining iteration compares `0` against the
next new component, so the loop breaks with `is_newer = True` at the
first positive component and otherwise falls through with `False`. -/
def anyPos : List Nat → Bool
  | [] => false
  | n :: ns => if 0 < n then true else anyPos ns

/-- The component comparison loop of `save_app_info`: iterate over
`range(max(len(existing), len(new)))`, treating missing components as 0;
the first strictly differing pair decides, `is_newer` stays `False` when
all compared components are equal.  First argument: existing parts;
second: new parts.  (With the existing side exhausted the loop is
`anyPos`; with the new side exhausted it compares each remaining
existing component against 0, breaking with `False` at the first
positive one and ending with the initial `False` otherwise.) -/
def isNewerParts : List Nat → List Nat → Bool
  | [], ns => anyPos ns
  | e :: es, [] => if 0 < e then false else isNewerParts es []
  | e :: es, n :: ns => if e < n then true else if n < e then false else isNewerParts es ns

/-- The version gate of `save_app_info` (the spec's
`VersionGate.shouldAccept`).  `none` for the existing version (file
absent, or stored record without a `PackageVersion` key) accepts
unconditionally; an empty existing or new string fails Python's
truthiness test `if existing_version and new_version:` and also accepts
unconditionally; otherwise the normalized numeric comparison decides.

The `except` branch of the source (plain string comparison) is not
reachable from here: `re.findall(r'\d+', ...)` never raises and returns
only digit strings, `int` on a digit string never raises, and the
comparison loop indexes within bounds, so the `try` body cannot raise
for any input string. -/
def shouldAccept : Option String → String → Bool
  | none, _ => true
  | some e, n =>
    if e = "" || n = "" then true
    else isNewerParts (normalize_version e) (normalize_version n)

/-- The common padded length of the spec's comparison: at least 3
components, and at least the length of either digit-run sequence. -/
def padK (e n : String) : Nat :=
  max 3 (max (seqOf e).length (seqOf n).length)

/-- Modelled from the spec's words in §4.2 (used only to compare with the
code-derived gate): extract each maximal run of digits as an integer
sequence, zero-pad both sequences on the right to at least 3 components
and to a common length, and accept exactly when the new sequence is
strictly greater at the first differing index. -/
def specAccept (e n : String) : Bool :=
  lexLt (padTo (seqOf e) (padK e n)) (padTo (seqOf n) (padK e n))

/-- A directory entry returned by the GitHub contents API for an app's
manifest path: its name and its repository path. -/
structure Folder where
  name : String
  path : String
deriving DecidableEq, Repr

/-- `is_version_folder`: `re.match(r'^\d', folder_name)` — the name's
first character is a decimal digit (no match on the empty string). -/
def is_version_folder (name : String) : Bool :=
  match name.data with
  | [] => false
  | c :: _ => c.isDigit

/-- Suffix of the character list starting at the first decimal digit
(the position where `re.search(r'(\d+(?:\.\d+)*)', name)` matches),
split into that digit and the rest. -/
def findDigitStart : List Char → Option (Char × List Char)
  | [] => none
  | c :: cs => if c.isDigit then some (c, cs) else findDigitStart cs

/-- Worker matching the regex `\d+(?:\.\d+)*` greedily from the current
position: `acc` is the reversed current digit run; a `'.'` followed by a
digit starts the next group, anything else ends the match. -/
def groupsAux : List Char → List Char → List (List Char)
  | acc, [] => [acc.reverse]
  | acc, c :: cs =>
    if c.isDigit then groupsAux (c :: acc) cs
    else if c = '.' then
      match cs with
      | [] => [acc.reverse]
      | d :: ds => if d.isDigit then acc.reverse :: groupsAux [d] ds else [acc.reverse]
    else [acc.reverse]

/-- `re.search(r'(\d+(?:\.\d+)*)', name)` followed by
`[int(part) for part in group(1).split('.')]` in
`get_latest_version_folder`; `none` when the name has no digit at all. -/
def extract_version (name : String) : Option (List Nat) :=
  (findDigitStart name.data).map fun p => (groupsAux [p.1] p.2).map parseDigits

/-- The `version_parts` key attached to each folder before sorting;
`[0]` is the default assigned when the regex finds no digits. -/
def versionKey (f : Folder) : List Nat :=
  (extract_version f.name).getD [0]

/-- The order used by `version_folders.sort(key=..., reverse=True)`:
`f` may precede `g` when `f`'s parts are not Python-less-than `g`'s.
CPython's `reverse=True` sort is stable and descending, which insertion
sort with this relation reproduces exactly. -/
def versionGe (f g : Folder) : Prop :=
  pyLt (versionKey f) (versionKey g) = false

instance : DecidableRel versionGe := fun _ _ =>
  inferInstanceAs (Decidable (_ = false))

/-- Commit date of a folder as the code computes it: the remote lookup
keyed by the folder's path, with `datetime.min` (modelled as `0`) on a
failed or empty lookup. -/
def dateOf (dates : String → Option Nat) (f : Folder) : Nat :=
  (dates f.path).getD 0

/-- The order used by `top_folders.sort(key=..commit_date.., reverse=True)`. -/
def dateGe (dates : String → Option Nat) (f g : Folder) : Prop :=
  dateOf dates g ≤ dateOf dates f

instance (dates : String → Option Nat) : DecidableRel (dateGe dates) := fun _ _ =>
  inferInstanceAs (Decidable (_ ≤ _))

/-- The numeric-ranking sort of `get_latest_version_folder`: stable
descending by `version_parts` under Python list comparison. -/
def rankVersions (l : List Folder) : List Folder :=
  List.insertionSort versionGe l

/-- The bounded candidate set: the top (at most) 3 entries by numeric
rank among the digit-prefixed folders (`version_folders[:3]`). -/
def candidateSet (folders : List Folder) : List Folder :=
  (rankVersions (folders.filter fun f => is_version_folder f.name)).take 3

/-- `get_latest_version_folder`: filter to digit-prefixed folders
(`none` when none remain), rank by version, keep the top 3, fetch each
candidate's commit date, re-sort descending by commit date and return
the first.  The source's `except` fallback around the ranking block
("use all folders") is unreachable: extraction and sorting cannot raise
there (see the claim about the `[0]` default below). -/
def get_latest_version_folder (folders : List Folder)
    (dates : String → Option Nat) : Option Folder :=
  let vf := folders.filter fun f => is_version_folder f.name
  if vf.isEmpty then none
  else (List.insertionSort (dateGe dates) (candidateSet folders)).head?

/-- One element of the descriptor's `Installers` list (only the fields
the script reads). -/
structure Installer where
  architecture : String
  installerUrl : Option String
  installerSha256 : Option String
deriving DecidableEq, Repr

/-- The fetched installer descriptor (`installer_data`): the top-level
fields `save_app_info` copies into `json_data`, plus the `Installers`
list.  A missing YAML key is `none` / `[]`. -/
structure InstallerData where
  packageIdentifier : Option String
  packageVersion : Option String
  installerType : Option String
  scope : Option String
  installModes : List String
  installers : List Installer
deriving DecidableEq, Repr

/-- What reading the existing per-(app, architecture) JSON file can
yield in `save_app_info`: the file does not exist, opening/parsing it
raises (the outer `except` that just logs and falls through to the
write), or a parsed record.  Of the parsed record only
`existing_data.get('PackageVersion')` is consulted, so that is the one
field modelled; after `save_app_info` removes `None` values, a written
file stores the key exactly when the descriptor's version was not
`None` (an empty string is kept). -/
structure StoredRecord where
  packageVersion : Option String
deriving DecidableEq, Repr

inductive ReadResult where
  | absent
  | unreadable
  | record (r : StoredRecord)
deriving DecidableEq, Repr

/-- The comparison step of `save_app_info` once the existing file was
parsed: with both versions present the gate decides (and `shouldAccept`
itself handles Python's truthiness test on empty strings); with either
version absent the comparison is skipped and the write goes through. -/
def gateCompare : Option String → Option String → Bool
  | some e, some n => shouldAccept (some e) n
  | some _, none => true
  | none, _ => true

/-- The decision core of `save_app_info` for one (descriptor,
architecture) pair: `false` when no installer matches the architecture
or when the gate rejects, `true` when the new record is written.  The
write itself and I/O write failures are outside the model. -/
def save_app_info (stored : ReadResult) (data : InstallerData) (arch : String) : Bool :=
  match data.installers.find? fun i => i.architecture == arch with
  | none => false
  | some _ =>
    match stored with
    | ReadResult.absent => true
    | ReadResult.unreadable => true
    | ReadResult.record r => gateCompare r.packageVersion data.packageVersion

/-- The store of per-architecture record files for one app, keyed by
architecture (each (app, architecture) pair has its own file). -/
def Store : Type := String → ReadResult

/-- The architecture loop of `process_app`
(`for arch in architectures: if save_app_info(...)`), counting accepted
writes and updating the per-architecture store. -/
def runArchs (data : InstallerData) : List String → Store → Nat × Store
  | [], st => (0, st)
  | arch :: rest, st =>
    if save_app_info (st arch) data arch then
      let st1 : Store := fun a => if a = arch then ReadResult.record ⟨data.packageVersion⟩ else st a
      let p := runArchs data rest st1
      (p.1 + 1, p.2)
    else runArchs data rest st

/-- `set(inst.get('Architecture') for inst in installers)`, as a
duplicate-free list. -/
def architectures (data : InstallerData) : List String :=
  (data.installers.map fun i => i.architecture).dedup

/-- `process_app` for one app, from resolution onward: resolve the
latest version folder, fetch its descriptor (`fetch` models
`get_installer_yaml`, which is deterministic in the upstream state), and
run `save_app_info` for every architecture in the descriptor.  Returns
the number of accepted writes and the updated store. -/
def process_app (folders : List Folder) (dates : String → Option Nat)
    (fetch : Folder → Option InstallerData) (store : Store) : Nat × Store :=
  match get_latest_version_folder folders dates with
  | none => (0, store)
  | some f =>
    match fetch f with
    | none => (0, store)
    | some data => runArchs data (architectures data) store

/-! ### Order lemmas for the Python list comparison -/

theorem lexLt_eq_pyLt : ∀ a b : List Nat, lexLt a b = pyLt a b
  | [], [] => rfl
  | _ :: _, [] => rfl
  | [], _ :: _ => rfl
  | a :: as, b :: bs => by
    simp only [lexLt, pyLt]
    by_cases h1 : a < b
    · simp [h1]
    · by_cases h2 : b < a
      · simp [h1, h2]
      · simp [h1, h2, lexLt_eq_pyLt as bs]

theorem pyLt_irrefl : ∀ l : List Nat, pyLt l l = false
  | [] => rfl
  | a :: as => by simp [pyLt, pyLt_irrefl as]

theorem pyLt_asymm : ∀ a b : List Nat, pyLt a b = true → pyLt b a = false
  | _, [], h => by simp [pyLt] at h
  | [], _ :: _, _ => by simp [pyLt]
  | a :: as, b :: bs, h => by
    simp only [pyLt] at h ⊢
    by_cases h1 : a < b
    · have h2 : ¬ b < a := by omega
      simp [h1, h2]
    · by_cases h2 : b < a
      · simp [h1, h2] at h
      · simp only [h1, h2, if_false] at h
        simp [h1, h2, pyLt_asymm as bs h]

theorem pyLt_tri : ∀ a b : List Nat, pyLt a b = true ∨ a = b ∨ pyLt b a = true
  | [], [] => Or.inr (Or.inl rfl)
  | [], _ :: _ => Or.inl (by simp [pyLt])
  | _ :: _, [] => Or.inr (Or.inr (by simp [pyLt]))
  | a :: as, b :: bs => by
    by_cases h1 : a < b
    · exact Or.inl (by simp [pyLt, h1])
    · by_cases h2 : b < a
      · exact Or.inr (Or.inr (by simp [pyLt, h2]))
      · have hab : a = b := by omega
        subst hab
        rcases pyLt_tri as bs with h | h | h
        · exact Or.inl (by simp [pyLt, h])
        · exact Or.inr (Or.inl (by rw [h]))
        · exact Or.inr (Or.inr (by simp [pyLt, h]))

theorem pyLt_trans : ∀ a b c : List Nat, pyLt a b = true → pyLt b c = true → pyLt a c = true
  | _, [], _, h1, _ => by simp [pyLt] at h1
  | _, _ :: _, [], _, h2 => by simp [pyLt] at h2
  | [], b :: bs, c :: cs, _, _ => by simp [pyLt]
  | a :: as, b :: bs, c :: cs, h1, h2 => by
    simp only [pyLt] at h1 h2 ⊢
    by_cases hab : a < b
    · by_cases hbc : b < c
      · simp [show a < c by omega]
      · by_cases hcb : c < b
        · simp [hab, hbc, hcb] at h2
        · have : b = c := by omega
          subst this
          simp [hab]
    · by_cases hba : b < a
      · simp [hab, hba] at h1
      · have : a = b := by omega
        subst this
        simp only [hab, lt_irrefl, if_false] at h1 h2 ⊢
        by_cases hac : a < c
        · simp [hac]
        · by_cases hca : c < a
          · simp [hac, hca] at h2
          · simp only [hac, hca, if_false] at h2 ⊢
            exact pyLt_trans as bs cs h1 h2

/-- Transitivity of "not Python-less-than", the relation the descending
sort is stable for. -/
theorem pyLt_notLt_trans {a b c : List Nat} (h1 : pyLt a b = false) (h2 : pyLt b c = false) :
    pyLt a c = false := by
  by_contra hc
  have hac : pyLt a c = true := by
    cases h : pyLt a c
    · exact absurd h hc
    · rfl
  rcases pyLt_tri a b with h | h | h
  · rw [h] at h1; cases h1
  · subst h; rw [hac] at h2; cases h2
  · have := pyLt_trans b a c h hac
    rw [this] at h2; cases h2

theorem lexLt_irrefl (l : List Nat) : lexLt l l = false := by
  rw [lexLt_eq_pyLt]; exact pyLt_irrefl l

theorem lexLt_asymm {a b : List Nat} (h : lexLt a b = true) : lexLt b a = false := by
  rw [lexLt_eq_pyLt] at h ⊢; exact pyLt_asymm a b h

/-! ### Padding lemmas -/

theorem padTo_nil (k : Nat) : padTo [] k = List.replicate k 0 := by
  simp [padTo]

theorem padTo_cons (x : Nat) (l : List Nat) (k : Nat) :
    padTo (x :: l) (k + 1) = x :: padTo l k := by
  simp [padTo, Nat.succ_sub_succ]

theorem padTo_self (l : List Nat) : padTo l l.length = l := by
  simp [padTo]

theorem padTo_length (l : List Nat) (k : Nat) : (padTo l k).length = max l.length k := by
  simp [padTo]
  omega

theorem padTo_padTo (l : List Nat) (j k : Nat) :
    padTo (padTo l j) k = padTo l (max j k) := by
  simp only [padTo, List.length_append, List.length_replicate, List.append_assoc,
    ← List.replicate_add]
  congr 2
  omega

/-! ### Zero-padded comparison versus the code's comparison loop -/

theorem lexLt_replicate_zero : ∀ l : List Nat, lexLt l (List.replicate l.length 0) = false
  | [] => rfl
  | x :: l => by
    simp only [List.length_cons, List.replicate_succ, lexLt]
    by_cases hx : 0 < x
    · simp [hx, show ¬ x < 0 by omega]
    · simp [show x = 0 by omega, lexLt_replicate_zero l]

theorem lexLt_replicate_zero_anyPos : ∀ l : List Nat,
    lexLt (List.replicate l.length 0) l = anyPos l
  | [] => rfl
  | x :: l => by
    simp only [List.length_cons, List.replicate_succ, lexLt, anyPos]
    by_cases hx : 0 < x
    · simp [hx]
    · simp [show x = 0 by omega, lexLt_replicate_zero_anyPos l]

theorem zpLt_nil_left (b : List Nat) : zpLt [] b = anyPos b := by
  simp only [zpLt, List.length_nil, Nat.zero_max, padTo_nil, padTo_self]
  exact lexLt_replicate_zero_anyPos b

theorem zpLt_nil_right (a : List Nat) : zpLt a [] = false := by
  simp only [zpLt, List.length_nil, Nat.max_zero, padTo_nil, padTo_self]
  exact lexLt_replicate_zero a

theorem zpLt_cons_cons (x y : Nat) (as bs : List Nat) :
    zpLt (x :: as) (y :: bs) =
      if x < y then true else if y < x then false else zpLt as bs := by
  have hm : max (x :: as).length (y :: bs).length = max as.length bs.length + 1 := by
    simp only [List.length_cons]
    omega
  unfold zpLt
  rw [hm, padTo_cons, padTo_cons]
  rfl

/-- The comparison loop of `save_app_info` computes exactly the
zero-padded lexicographic comparison (new strictly greater than
existing). -/
theorem isNewerParts_eq_zpLt : ∀ e n : List Nat, isNewerParts e n = zpLt e n
  | [], n => by rw [zpLt_nil_left]; rfl
  | e :: es, [] => by
    rw [zpLt_nil_right]
    simp only [isNewerParts]
    by_cases he : 0 < e
    · simp [he]
    · simp only [he, if_false]
      rw [isNewerParts_eq_zpLt es [], zpLt_nil_right]
  | e :: es, n :: ns => by
    rw [zpLt_cons_cons]
    simp only [isNewerParts]
    by_cases h1 : e < n
    · simp [h1]
    · by_cases h2 : n < e
      · simp [h1, h2]
      · simp [h1, h2, isNewerParts_eq_zpLt es ns]

theorem zpLt_imp_pyLt : ∀ a b : List Nat, zpLt a b = true → pyLt a b = true
  | [], [], h => by rw [zpLt_nil_right] at h; cases h
  | [], _ :: _, _ => by simp [pyLt]
  | _ :: _, [], h => by rw [zpLt_nil_right] at h; cases h
  | a :: as, b :: bs, h => by
    rw [zpLt_cons_cons] at h
    simp only [pyLt]
    by_cases h1 : a < b
    · simp [h1]
    · by_cases h2 : b < a
      · simp [h1, h2] at h
      · simp only [h1, h2, if_false] at h ⊢
        exact zpLt_imp_pyLt as bs h

theorem isNewerParts_irrefl (l : List Nat) : isNewerParts l l = false := by
  rw [isNewerParts_eq_zpLt]
  simp only [zpLt, Nat.max_self, padTo_self]
  exact lexLt_irrefl l

theorem isNewerParts_asymm {a b : List Nat} (h : isNewerParts a b = true) :
    isNewerParts b a = false := by
  rw [isNewerParts_eq_zpLt] at h ⊢
  simp only [zpLt] at h ⊢
  rw [Nat.max_comm b.length a.length]
  exact lexLt_asymm h

/-! ### Digit extraction and normalization -/

theorem digitRunsAux_eq_nil (cs : List Char) (h : ∀ c ∈ cs, c.isDigit = false) :
    digitRunsAux [] cs = [] := by
  induction cs with
  | nil => rfl
  | cons c cs ih =>
    have hc := h c (List.mem_cons_self c cs)
    unfold digitRunsAux
    simp only [hc, Bool.false_eq_true, if_false, if_pos rfl]
    exact ih fun b hb => h b (List.mem_cons_of_mem _ hb)

/-- A version string with no digit at all normalizes to `[0, 0, 0]`:
`re.findall(r'\d+', s)` returns `[]`, which the padding loop extends
with three `'0'` entries — no exception is raised anywhere. -/
theorem normalize_version_of_noDigits (s : String) (h : ∀ c ∈ s.data, c.isDigit = false) :
    normalize_version s = [0, 0, 0] := by
  unfold normalize_version seqOf digitRuns
  rw [digitRunsAux_eq_nil s.data h]
  rfl

/-- On non-empty inputs the gate of `save_app_info` is exactly the
comparison the spec describes: digit-run sequences, zero-padded to at
least 3 components and to a common length, compared lexicographically. -/
theorem shouldAccept_eq_specAccept (e n : String) (he : e ≠ "") (hn : n ≠ "") :
    shouldAccept (some e) n = specAccept e n := by
  have h1 : shouldAccept (some e) n
      = isNewerParts (normalize_version e) (normalize_version n) := by
    simp [shouldAccept, he, hn]
  rw [h1, isNewerParts_eq_zpLt]
  unfold zpLt normalize_version specAccept padK
  rw [padTo_length, padTo_length, padTo_padTo, padTo_padTo]
  congr 2 <;> omega

/-! ### Resolver: sorting facts -/

/-- Shared shape of the resolver's result: whenever at least one
digit-prefixed folder exists, the resolver returns a member of the
top-3-by-version candidate set whose commit date is maximal within it. -/
theorem resolve_spec (folders : List Folder) (dates : String → Option Nat)
    (h : (folders.filter fun f => is_version_folder f.name) ≠ []) :
    ∃ r, get_latest_version_folder folders dates = some r ∧ r ∈ candidateSet folders ∧
      ∀ g ∈ candidateSet folders, dateOf dates g ≤ dateOf dates r := by
  have hcs : candidateSet folders ≠ [] := by
    unfold candidateSet rankVersions
    intro hc
    rcases List.take_eq_nil_iff.mp hc with h3 | h3
    · cases h3
    · have hp := List.perm_insertionSort versionGe (folders.filter fun f => is_version_folder f.name)
      rw [h3] at hp
      exact h hp.symm.eq_nil
  have hperm : List.Perm (List.insertionSort (dateGe dates) (candidateSet folders))
      (candidateSet folders) :=
    List.perm_insertionSort _ _
  have htot : IsTotal Folder (dateGe dates) :=
    ⟨fun f g => Nat.le_total (dateOf dates g) (dateOf dates f)⟩
  have htrans : IsTrans Folder (dateGe dates) :=
    ⟨fun _ _ _ hfg hgh => Nat.le_trans hgh hfg⟩
  have hsorted : List.Sorted (dateGe dates) (List.insertionSort (dateGe dates) (candidateSet folders)) :=
    @List.sorted_insertionSort Folder (dateGe dates) _ htot htrans (candidateSet folders)
  cases hbd : List.insertionSort (dateGe dates) (candidateSet folders) with
  | nil =>
    rw [hbd] at hperm
    exact absurd hperm.symm.eq_nil hcs
  | cons r rest =>
    refine ⟨r, ?_, ?_, ?_⟩
    · unfold get_latest_version_folder
      have hvf : ((folders.filter fun f => is_version_folder f.name).isEmpty) = false := by
        cases hh : (folders.filter fun f => is_version_folder f.name) with
        | nil => exact absurd hh h
        | cons a l => rfl
      rw [if_neg (by simp [hvf])]
      rw [hbd]
      rfl
    · exact hperm.mem_iff.mp (hbd ▸ List.mem_cons_self r rest)
    · intro g hg
      have hg2 : g ∈ r :: rest := hbd ▸ hperm.mem_iff.mpr hg
      rcases List.mem_cons.mp hg2 with rfl | hg3
      · exact Nat.le_refl _
      · have := List.sorted_cons.mp (hbd ▸ hsorted)
        exact this.1 g hg3

/-! ### Persistence facts -/

theorem find?_arch_isSome (data : InstallerData) (a : String) (h : a ∈ architectures data) :
    (data.installers.find? fun i => i.architecture == a).isSome = true := by
  unfold architectures at h
  rw [List.mem_dedup] at h
  rcases List.mem_map.mp h with ⟨i, hi, hia⟩
  rw [List.find?_isSome]
  exact ⟨i, hi, by simp [hia]⟩

theorem save_app_info_noInst (stored : ReadResult) (data : InstallerData) (arch : String)
    (hf : (data.installers.find? fun i => i.architecture == arch) = none) :
    save_app_info stored data arch = false := by
  unfold save_app_info
  rw [hf]

theorem save_app_info_record (r : StoredRecord) (data : InstallerData) (arch : String)
    (i : Installer)
    (hf : (data.installers.find? fun i => i.architecture == arch) = some i) :
    save_app_info (ReadResult.record r) data arch
      = gateCompare r.packageVersion data.packageVersion := by
  unfold save_app_info
  rw [hf]

theorem process_app_noFolder (folders : List Folder) (dates : String → Option Nat)
    (fetch : Folder → Option InstallerData) (store : Store)
    (hres : get_latest_version_folder folders dates = none) :
    process_app folders dates fetch store = (0, store) := by
  unfold process_app
  rw [hres]

theorem process_app_noFetch (folders : List Folder) (dates : String → Option Nat)
    (fetch : Folder → Option InstallerData) (store : Store) (f : Folder)
    (hres : get_latest_version_folder folders dates = some f) (hfd : fetch f = none) :
    process_app folders dates fetch store = (0, store) := by
  unfold process_app
  simp only [hres, hfd]

theorem process_app_resolved (folders : List Folder) (dates : String → Option Nat)
    (fetch : Folder → Option InstallerData) (store : Store) (f : Folder)
    (data : InstallerData)
    (hres : get_latest_version_folder folders dates = some f)
    (hfd : fetch f = some data) :
    process_app folders dates fetch store = runArchs data (architectures data) store := by
  unfold process_app
  simp only [hres, hfd]

/-- Re-saving the record that was just written is always rejected by the
gate, provided the descriptor's version is present and non-empty. -/
theorem save_record_self (data : InstallerData) (arch v : String)
    (hv : data.packageVersion = some v) (hv2 : v ≠ "") :
    save_app_info (ReadResult.record ⟨data.packageVersion⟩) data arch = false := by
  cases hf : data.installers.find? fun i => i.architecture == arch with
  | none => exact save_app_info_noInst _ data arch hf
  | some i =>
    rw [save_app_info_record _ data arch i hf]
    show gateCompare data.packageVersion data.packageVersion = false
    rw [hv]
    show shouldAccept (some v) v = false
    simp [shouldAccept, hv2, isNewerParts_irrefl]

theorem runArchs_frame (data : InstallerData) :
    ∀ (l : List String) (st : Store) (a : String), a ∉ l → (runArchs data l st).2 a = st a := by
  intro l
  induction l with
  | nil => intro st a _; rfl
  | cons arch rest ih =>
    intro st a ha
    have hane : a ≠ arch := fun hh => ha (hh ▸ List.mem_cons_self arch rest)
    have harest : a ∉ rest := fun hh => ha (List.mem_cons_of_mem _ hh)
    unfold runArchs
    by_cases hs : save_app_info (st arch) data arch = true
    · rw [if_pos hs]
      show (runArchs data rest _).2 a = st a
      rw [ih _ _ harest]
      simp [hane]
    · rw [if_neg hs]
      exact ih _ _ harest

/-- After one pass of the architecture loop, every architecture in the
list holds a record the gate will reject on an identical re-run
(provided the descriptor's version is present and non-empty). -/
theorem runArchs_post (data : InstallerData) (v : String)
    (hv : data.packageVersion = some v) (hv2 : v ≠ "") :
    ∀ (l : List String) (st : Store), l.Nodup →
      ∀ a ∈ l, save_app_info ((runArchs data l st).2 a) data a = false := by
  intro l
  induction l with
  | nil => intro st _ a ha; exact absurd ha (List.not_mem_nil a)
  | cons arch rest ih =>
    intro st hnd a ha
    have hnar : arch ∉ rest := (List.nodup_cons.mp hnd).1
    have hndr : rest.Nodup := (List.nodup_cons.mp hnd).2
    unfold runArchs
    by_cases hs : save_app_info (st arch) data arch = true
    · rw [if_pos hs]
      show save_app_info ((runArchs data rest _).2 a) data a = false
      rcases List.mem_cons.mp ha with rfl | har
      · rw [runArchs_frame data rest _ a hnar]
        simp only [if_pos rfl]
        exact save_record_self data a v hv hv2
      · exact ih _ hndr a har
    · rw [if_neg hs]
      rcases List.mem_cons.mp ha with rfl | har
      · rw [runArchs_frame data rest st a hnar]
        cases hss : save_app_info (st a) data a
        · rfl
        · exact absurd hss hs
      · exact ih _ hndr a har

theorem runArchs_noop (data : InstallerData) :
    ∀ (l : List String) (st : Store),
      (∀ a ∈ l, save_app_info (st a) data a = false) → runArchs data l st = (0, st) := by
  intro l
  induction l with
  | nil => intro st _; rfl
  | cons arch rest ih =>
    intro st h
    unfold runArchs
    rw [if_neg (by rw [h arch (List.mem_cons_self arch rest)]; simp)]
    exact ih st fun a ha => h a (List.mem_cons_of_mem _ ha)

/-! ### Claims -/

/-- Claim C1, counterexample: for the digitless strings of the claim the
gate rejects — `shouldAccept "abc" "abd"` is `false`, not `true`: both
strings normalize to `[0, 0, 0]` and compare equal, and no exception
occurs that could reach the lexicographic string-comparison fallback. -/
theorem gate_digitless_counterexample : shouldAccept (some "abc") "abd" = false := by
  decide

/-- Claim C1 (amended): for two non-empty version strings that each
contain no digit at all, normalization yields `[0, 0, 0]` for both, the
comparison treats them as equal, and the gate rejects; the lexicographic
fallback branch of the source is unreachable for such inputs because
normalization raises no error on them. -/
theorem gate_digitless_rejects (e n : String) (he : e ≠ "") (hn : n ≠ "")
    (hde : ∀ c ∈ e.data, c.isDigit = false) (hdn : ∀ c ∈ n.data, c.isDigit = false) :
    shouldAccept (some e) n = false := by
  simp [shouldAccept, he, hn, normalize_version_of_noDigits e hde,
    normalize_version_of_noDigits n hdn, isNewerParts_irrefl]

/-- Claim C1, witness: the amended statement applied at the claim's own
example pair. -/
theorem gate_digitless_rejects_witness : shouldAccept (some "abc") "abd" = false :=
  gate_digitless_rejects "abc" "abd" (by decide) (by decide) (by decide) (by decide)

/-- Claim C2, counterexample: with an empty new version string the gate
accepts (Python's truthiness test bypasses the comparison) although the
padded digit-run sequence of the new string is not strictly greater than
the existing one — the claimed equivalence fails at
`existing = "1.0.0"`, `new = ""`. -/
theorem gate_spec_iff_counterexample :
    shouldAccept (some "1.0.0") "" = true ∧ specAccept "1.0.0" "" = false := by
  decide

/-- Claim C2 (amended): for non-empty existing and new version strings
the gate accepts exactly when, after extracting each maximal digit run
as an integer sequence and zero-padding both sequences on the right to
at least 3 components and to a common length, the new sequence is
strictly greater at the first differing index; it never accepts when the
padded sequences are equal; it accepts unconditionally when no existing
version is present; and the claim's concrete examples all hold. -/
theorem gate_matches_spec :
    (∀ e n : String, e ≠ "" → n ≠ "" → shouldAccept (some e) n = specAccept e n) ∧
    (∀ e n : String, e ≠ "" → n ≠ "" →
      padTo (seqOf e) (padK e n) = padTo (seqOf n) (padK e n) →
      shouldAccept (some e) n = false) ∧
    (∀ n : String, shouldAccept none n = true) ∧
    shouldAccept none "1.0.0" = true ∧
    shouldAccept (some "1.0.0") "1.0.0" = false ∧
    shouldAccept (some "1.2.0") "1.10.0" = true ∧
    shouldAccept (some "2.0") "1.9.9" = false ∧
    shouldAccept (some "1.2") "1.2.0" = false := by
  refine ⟨shouldAccept_eq_specAccept, ?_, fun n => rfl, rfl,
    by decide, by decide, by decide, by decide⟩
  intro e n he hn hpad
  rw [shouldAccept_eq_specAccept e n he hn]
  unfold specAccept
  rw [hpad]
  exact lexLt_irrefl _

/-- Claim C2, witness: the amended equivalence applied at a concrete
non-empty pair. -/
theorem gate_matches_spec_witness :
    shouldAccept (some "3.1") "3.2" = specAccept "3.1" "3.2" :=
  gate_matches_spec.1 "3.1" "3.2" (by decide) (by decide)

/-- Claim C3, counterexample: a stored record with version "1.0.0" is
overwritten by a record whose `PackageVersion` is the empty string,
which compares strictly older under the gate's normalized comparison
(the truthiness test skips the gate entirely). -/
theorem gate_monotone_counterexample :
    save_app_info (ReadResult.record ⟨some "1.0.0"⟩)
      ⟨some "Example.App", some "", none, none, [], [⟨"x64", none, none⟩]⟩ "x64" = true ∧
    isNewerParts (normalize_version "") (normalize_version "1.0.0") = true := by
  decide

/-- Claim C3 (amended): whenever `save_app_info` overwrites a stored
record whose `PackageVersion` is present and non-empty with a new record
whose `PackageVersion` is present and non-empty, the new version is
strictly newer under the normalized comparison — in particular it is
never strictly older, so the persisted version cannot regress along such
writes. -/
theorem save_no_regress (r : StoredRecord) (data : InstallerData) (arch e n : String)
    (hre : r.packageVersion = some e) (hn : data.packageVersion = some n)
    (he : e ≠ "") (hn2 : n ≠ "")
    (hw : save_app_info (ReadResult.record r) data arch = true) :
    isNewerParts (normalize_version e) (normalize_version n) = true ∧
    isNewerParts (normalize_version n) (normalize_version e) = false := by
  cases hf : data.installers.find? fun i => i.architecture == arch with
  | none => rw [save_app_info_noInst _ data arch hf] at hw; cases hw
  | some i =>
    rw [save_app_info_record r data arch i hf, hre, hn] at hw
    have hw2 : shouldAccept (some e) n = true := hw
    simp only [shouldAccept, he, hn2] at hw2
    exact ⟨hw2, isNewerParts_asymm hw2⟩

/-- Claim C3, witness: the amended statement applied at a concrete
accepted upgrade from "1.0.0" to "2.0.0". -/
theorem save_no_regress_witness :
    isNewerParts (normalize_version "1.0.0") (normalize_version "2.0.0") = true ∧
    isNewerParts (normalize_version "2.0.0") (normalize_version "1.0.0") = false :=
  save_no_regress ⟨some "1.0.0"⟩
    ⟨some "Example.App", some "2.0.0", none, none, [], [⟨"x64", none, none⟩]⟩
    "x64" "1.0.0" "2.0.0" rfl rfl (by decide) (by decide) (by decide)

/-- Claim C4: for every non-empty list of digit-prefixed entries the
candidate set holds at most the top 3 entries by numeric rank, and the
resolver returns a member of that candidate set whose modification
timestamp is maximal within it (the head after the stable descending
re-sort by timestamp); it cannot return `none` here since the candidate
set is non-empty. -/
theorem resolver_top3 (folders : List Folder) (dates : String → Option Nat)
    (hne : folders ≠ []) (hall : ∀ f ∈ folders, is_version_folder f.name = true) :
    (candidateSet folders).length ≤ 3 ∧
    ∃ r, get_latest_version_folder folders dates = some r ∧ r ∈ candidateSet folders ∧
      ∀ g ∈ candidateSet folders, dateOf dates g ≤ dateOf dates r := by
  constructor
  · unfold candidateSet
    exact List.length_take_le 3 _
  · apply resolve_spec
    rwa [List.filter_eq_self.mpr hall]

/-- Claim C4, witness: the statement applied at the three-folder example
where "2.0.0" has the most recent commit date among the top 3. -/
theorem resolver_top3_witness :
    (candidateSet [⟨"1.0.0", "q1"⟩, ⟨"2.0.0", "q2"⟩, ⟨"2.0.1", "q3"⟩]).length ≤ 3 ∧
    ∃ r, get_latest_version_folder [⟨"1.0.0", "q1"⟩, ⟨"2.0.0", "q2"⟩, ⟨"2.0.1", "q3"⟩]
        (fun p => if p = "q2" then some 100 else some 50) = some r ∧
      r ∈ candidateSet [⟨"1.0.0", "q1"⟩, ⟨"2.0.0", "q2"⟩, ⟨"2.0.1", "q3"⟩] ∧
      ∀ g ∈ candidateSet [⟨"1.0.0", "q1"⟩, ⟨"2.0.0", "q2"⟩, ⟨"2.0.1", "q3"⟩],
        dateOf (fun p => if p = "q2" then some 100 else some 50) g ≤
          dateOf (fun p => if p = "q2" then some 100 else some 50) r :=
  resolver_top3 [⟨"1.0.0", "q1"⟩, ⟨"2.0.0", "q2"⟩, ⟨"2.0.1", "q3"⟩]
    (fun p => if p = "q2" then some 100 else some 50) (by decide) (by decide)

/-- Claim C5: the numeric ranking is a permutation of its input (total,
never errors), never places an entry above one that is strictly greater
in the zero-padded order — so differing sequence lengths are never
misranked relative to that order — and on the claim's example ranks
"1.10.0" above "1.9.5" above "1.2.0" by integer comparison. -/
theorem rank_zero_padded_sound :
    (∀ l : List Folder, List.Perm (rankVersions l) l ∧
      (rankVersions l).Pairwise fun f g => zpLt (versionKey f) (versionKey g) = false) ∧
    (rankVersions [⟨"1.2.0", "a"⟩, ⟨"1.10.0", "b"⟩, ⟨"1.9.5", "c"⟩]).map Folder.name
      = ["1.10.0", "1.9.5", "1.2.0"] := by
  refine ⟨fun l => ⟨List.perm_insertionSort _ _, ?_⟩, by decide⟩
  have htot : IsTotal Folder versionGe := ⟨fun f g => by
    unfold versionGe
    cases h : pyLt (versionKey f) (versionKey g)
    · exact Or.inl rfl
    · exact Or.inr (pyLt_asymm _ _ h)⟩
  have htrans : IsTrans Folder versionGe :=
    ⟨fun _ _ _ h1 h2 => pyLt_notLt_trans h1 h2⟩
  have hs : List.Sorted versionGe (rankVersions l) :=
    @List.sorted_insertionSort Folder versionGe _ htot htrans l
  refine List.Pairwise.imp ?_ hs
  intro f g hfg
  unfold versionGe at hfg
  cases h : zpLt (versionKey f) (versionKey g)
  · rfl
  · rw [zpLt_imp_pyLt _ _ h] at hfg; cases hfg

/-- Claim C6: when no entry's name begins with a decimal digit
(including the empty list), the resolver returns `none`. -/
theorem resolver_none_of_no_digit (folders : List Folder) (dates : String → Option Nat)
    (h : ∀ f ∈ folders, is_version_folder f.name = false) :
    get_latest_version_folder folders dates = none := by
  have hf : (folders.filter fun f => is_version_folder f.name) = [] := by
    rw [List.filter_eq_nil_iff]
    intro a ha
    simp [h a ha]
  simp [get_latest_version_folder, hf]

/-- Claim C6, witness: the statement applied at a list with one
non-digit-prefixed entry. -/
theorem resolver_none_of_no_digit_witness :
    get_latest_version_folder [⟨".validation", "m"⟩] (fun _ => some 3) = none :=
  resolver_none_of_no_digit [⟨".validation", "m"⟩] (fun _ => some 3) (by decide)

/-- Claim C7, counterexample: with an upstream descriptor whose
`PackageVersion` is the empty string, the second identical run still
accepts one write — the stored empty version fails the truthiness test,
so the gate never rejects and the pipeline is not idempotent. -/
theorem second_run_counterexample :
    (process_app [⟨"1.0.0", "p"⟩] (fun _ => some 5)
        (fun _ => some ⟨some "X.Y", some "", none, none, [], [⟨"x64", some "u", some "s"⟩]⟩)
        (process_app [⟨"1.0.0", "p"⟩] (fun _ => some 5)
          (fun _ => some ⟨some "X.Y", some "", none, none, [], [⟨"x64", some "u", some "s"⟩]⟩)
          fun _ => ReadResult.absent).2).1 = 1 := by
  decide

/-- Claim C7 (amended): when every fetchable descriptor carries a
present, non-empty `PackageVersion`, running the pipeline twice against
identical upstream responses yields zero accepted writes on the second
run: for every architecture the gate rejects because the stored version
equals the freshly fetched one. -/
theorem second_run_no_writes (folders : List Folder) (dates : String → Option Nat)
    (fetch : Folder → Option InstallerData) (store : Store)
    (hfetch : ∀ f data, fetch f = some data → ∃ v, data.packageVersion = some v ∧ v ≠ "") :
    (process_app folders dates fetch (process_app folders dates fetch store).2).1 = 0 := by
  cases hres : get_latest_version_folder folders dates with
  | none =>
    rw [process_app_noFolder folders dates fetch _ hres]
  | some f =>
    cases hfd : fetch f with
    | none =>
      rw [process_app_noFetch folders dates fetch _ f hres hfd]
    | some data =>
      obtain ⟨v, hv, hv2⟩ := hfetch f data hfd
      rw [process_app_resolved folders dates fetch _ f data hres hfd,
        process_app_resolved folders dates fetch store f data hres hfd]
      have hpost := runArchs_post data v hv hv2 (architectures data) store
        (List.nodup_dedup _)
      rw [runArchs_noop data (architectures data)
        ((runArchs data (architectures data) store).2) hpost]

/-- Claim C7, witness: the amended statement applied at a concrete
pipeline whose descriptor carries version "2.0.0". -/
theorem second_run_no_writes_witness :
    (process_app [⟨"1.0.0", "p"⟩] (fun _ => some 5)
        (fun _ => some ⟨some "X.Y", some "2.0.0", none, none, [], [⟨"x64", some "u", some "s"⟩]⟩)
        (process_app [⟨"1.0.0", "p"⟩] (fun _ => some 5)
          (fun _ => some ⟨some "X.Y", some "2.0.0", none, none, [], [⟨"x64", some "u", some "s"⟩]⟩)
          fun _ => ReadResult.absent).2).1 = 0 :=
  second_run_no_writes _ _ _ _ fun f data h => ⟨"2.0.0", by
    injection h with h
    subst h
    exact ⟨rfl, by decide⟩⟩

/-- Claim C8: a failed modification-timestamp lookup is assigned the
minimum representable timestamp (0 in this model) and never propagates:
for arbitrary lookup outcomes — including total failure — resolution
still returns an entry from the candidate set. -/
theorem timestamp_failure_defaults (folders : List Folder) (dates : String → Option Nat)
    (h : (folders.filter fun f => is_version_folder f.name) ≠ []) :
    (∀ f : Folder, dates f.path = none → dateOf dates f = 0) ∧
    ∃ r, get_latest_version_folder folders dates = some r ∧ r ∈ candidateSet folders := by
  refine ⟨fun f hf => by simp [dateOf, hf], ?_⟩
  obtain ⟨r, h1, h2, _⟩ := resolve_spec folders dates h
  exact ⟨r, h1, h2⟩

/-- Claim C8, witness: the statement applied at two folders whose
timestamp lookups all fail. -/
theorem timestamp_failure_defaults_witness :
    (∀ f : Folder, (fun _ => (none : Option Nat)) f.path = none →
      dateOf (fun _ => none) f = 0) ∧
    ∃ r, get_latest_version_folder [⟨"1.0.0", "q1"⟩, ⟨"2.0.0", "q2"⟩]
        (fun _ => none) = some r ∧
      r ∈ candidateSet [⟨"1.0.0", "q1"⟩, ⟨"2.0.0", "q2"⟩] :=
  timestamp_failure_defaults [⟨"1.0.0", "q1"⟩, ⟨"2.0.0", "q2"⟩] (fun _ => none) (by decide)

/-- Claim C9: when the existing file is unreadable, when the stored
record lacks a `PackageVersion`, or when the new `PackageVersion` is
missing or empty, `save_app_info` skips the comparison and writes
unconditionally (given a matching installer); such an ungated write can
regress the version, as the concrete conjunct shows. -/
theorem ungated_writes :
    (∀ (data : InstallerData) (arch : String),
        (data.installers.find? fun i => i.architecture == arch).isSome = true →
        save_app_info ReadResult.unreadable data arch = true) ∧
    (∀ (data : InstallerData) (arch : String),
        (data.installers.find? fun i => i.architecture == arch).isSome = true →
        save_app_info (ReadResult.record ⟨none⟩) data arch = true) ∧
    (∀ (r : StoredRecord) (data : InstallerData) (arch : String),
        (data.installers.find? fun i => i.architecture == arch).isSome = true →
        (data.packageVersion = none ∨ data.packageVersion = some "") →
        save_app_info (ReadResult.record r) data arch = true) ∧
    (save_app_info (ReadResult.record ⟨some "2.0.0"⟩)
        ⟨some "Example.App", some "", none, none, [], [⟨"x64", none, none⟩]⟩ "x64" = true ∧
      isNewerParts (normalize_version "") (normalize_version "2.0.0") = true) := by
  refine ⟨?_, ?_, ?_, by decide⟩
  · intro data arch h
    rw [Option.isSome_iff_exists] at h
    obtain ⟨i, hi⟩ := h
    unfold save_app_info
    rw [hi]
  · intro data arch h
    rw [Option.isSome_iff_exists] at h
    obtain ⟨i, hi⟩ := h
    rw [save_app_info_record ⟨none⟩ data arch i hi]
    rfl
  · intro r data arch h hpv
    rw [Option.isSome_iff_exists] at h
    obtain ⟨i, hi⟩ := h
    rw [save_app_info_record r data arch i hi]
    cases hr : r.packageVersion with
    | none => rfl
    | some e =>
      rcases hpv with hpv | hpv <;> rw [hpv]
      · rfl
      · show shouldAccept (some e) "" = true
        simp [shouldAccept]

/-- Claim C9, witness: an unreadable existing file leads to an
unconditional write for a concrete descriptor. -/
theorem ungated_writes_witness :
    save_app_info ReadResult.unreadable
      ⟨some "Example.App", none, none, none, [], [⟨"x64", none, none⟩]⟩ "x64" = true :=
  ungated_writes.1 ⟨some "Example.App", none, none, none, [], [⟨"x64", none, none⟩]⟩
    "x64" (by decide)

/-- Claim C10: for every name beginning with a decimal digit the numeric
extraction succeeds, so the `[0]` default is never assigned to such an
entry and the sorting block has no failing case (the embedding of the
ranking is total by construction, making the degraded all-folders
fallback unreachable). -/
theorem extraction_total_on_version_folders (name : String)
    (h : is_version_folder name = true) :
    ∃ parts, extract_version name = some parts ∧
      ∀ path, versionKey ⟨name, path⟩ = parts := by
  unfold is_version_folder at h
  cases hd : name.data with
  | nil => rw [hd] at h; cases h
  | cons c cs =>
    rw [hd] at h
    have h' : c.isDigit = true := h
    have h1 : extract_version name = some ((groupsAux [c] cs).map parseDigits) := by
      unfold extract_version
      rw [hd]
      simp [findDigitStart, h']
    exact ⟨_, h1, fun path => by simp [versionKey, h1]⟩

/-- Claim C10, witness: the statement applied at the digit-prefixed name
"1.2.3". -/
theorem extraction_total_witness :
    ∃ parts, extract_version "1.2.3" = some parts ∧
      ∀ path, versionKey ⟨"1.2.3", path⟩ = parts :=
  extraction_total_on_version_folders "1.2.3" (by decide)

end UpdateAppInfo
